import Mathlib

/-!
Verification of the chatwithpdf document pipeline.

This file embeds, as Lean definitions, the parts of the repository that the
verified properties are about:

* `chunk_text` from `backend/app/services/document_service.py`
  (paragraph-based chunking with a word-window fallback);
* `EnhancedLangChainAgent.add_documents`, `ask_question` and
  `_initialize_llm` from
  `backend/app/services/enhanced_langchain_agent.py`;
* `EmbeddingService.store_document` / `clear_all_documents` from
  `backend/app/services/embedding_service.py`.

Text is modelled as `List Char` (`Str`), which matches Python's
code-point-indexed `str` (`len`, slicing, `strip`, `split`).  External
collaborators (the Chroma vector index, the embedding model and the LLM
providers) are modelled at their interface boundary: the vector index as an
explicit list of entries with metadata, the LLM as an oracle
`String → Except String String` (an `Except.error` result plays the role of
a raised exception), the text splitter used by the agent as an oracle
`String → List String`, and Python's salted `hash` as an oracle
`String → Int`.

The file is organised as: definitions first (source embeddings, then the
specification-side reference definitions), then the supporting lemmas and
the claim theorems.
-/

/-- Python `str`, modelled as a list of Unicode code points (Python strings
are indexed and measured by code points, as is `List Char`). -/
abbrev Str := List Char

/-- The exact whitespace set of Python's `str.strip()` / `str.split()`:
space, tab, newline, carriage return, vertical tab, form feed. -/
def pyIsSpace (c : Char) : Bool :=
  c == ' ' || c == '\t' || c == '\n' || c == '\r' || c == '\x0b' || c == '\x0c'

/-- Python `s.strip()`: drop leading and trailing whitespace. -/
def pyStrip (s : Str) : Str :=
  ((s.dropWhile pyIsSpace).reverse.dropWhile pyIsSpace).reverse

/-- Helper for `pySplitWS`; `acc` holds the (reversed) current word. -/
def splitWSAux : Str → Str → List Str
  | [], acc => if acc.isEmpty then [] else [acc.reverse]
  | c :: rest, acc =>
    if pyIsSpace c then
      (if acc.isEmpty then [] else [acc.reverse]) ++ splitWSAux rest []
    else
      splitWSAux rest (c :: acc)

/-- Python `s.split()` (no separator argument): split on runs of whitespace,
dropping empty pieces. -/
def pySplitWS (s : Str) : List Str := splitWSAux s []

/-- Helper for `pySplitLitNN`.  The separator it scans for is the LITERAL
four-character sequence backslash, `n`, backslash, `n` — exactly what the
Python source `text.split('\x5cn\x5cn')` (a doubled backslash in the
source file) splits on.  `acc` holds the reversed current piece. -/
def splitLitNNAux : Str → Str → List Str
  | '\\' :: 'n' :: '\\' :: 'n' :: rest, acc => acc.reverse :: splitLitNNAux rest []
  | c :: rest, acc => splitLitNNAux rest (c :: acc)
  | [], acc => [acc.reverse]

/-- The `text.split('\x5cn\x5cn')` call of `chunk_text` (document_service.py
line 431): Python `str.split(sep)` with the literal backslash-n-backslash-n
separator, keeping empty pieces. -/
def pySplitLitNN (s : Str) : List Str := splitLitNNAux s []

/-- The literal four-character separator `chunk_text` appends between
paragraphs accumulated into one chunk (`current_chunk += "\x5cn\x5cn" +
paragraph`). -/
def litNN : Str := ['\\', 'n', '\\', 'n']

/-- Python `" ".join(ws)` generalised to any separator. -/
def joinWith (sep : Str) : List Str → Str
  | [] => []
  | [w] => w
  | w :: ws => w ++ sep ++ joinWith sep ws

/-- Python's negative-index slice `l[-k:]` as used in `chunk_text`:
for `k > 0` the trailing `min k l.length` elements, but for `k = 0`
(`l[-0:]` = `l[0:]`) the WHOLE list — the classic `-0` slice quirk. -/
def pyTakeLastSlice (k : Nat) (l : List Str) : List Str :=
  if k = 0 then l else l.drop (l.length - k)

/-- The genuine "trailing k elements" operation (returns `[]` for `k = 0`),
used on the specification side to state what overlap seeding claims. -/
def takeLastWords (k : Nat) (l : List Str) : List Str :=
  l.drop (l.length - k)

/-- Accumulator state of `chunk_text`'s paragraph loop: the emitted chunks
and the running `current_chunk` buffer. -/
structure ChunkState where
  chunks : List Str
  current : Str
deriving DecidableEq

/-- One iteration of the `for paragraph in paragraphs:` loop of
`chunk_text` (document_service.py lines 436-458), faithful to the source:
the paragraph is stripped and skipped if empty; the chunk is closed when
`len(current_chunk) + len(paragraph) + 2 > chunk_size` and the buffer is
non-empty; on close the new buffer is seeded from `words[-overlap//4:]`
(or `words[-10:]` when the buffer has at most `overlap//4` words); otherwise
the paragraph is appended with the literal `litNN` separator. -/
def chunkStep (chunk_size overlap : Nat) (st : ChunkState) (para0 : Str) : ChunkState :=
  let para := pyStrip para0
  if para.isEmpty then st
  else if st.current.length + para.length + 2 > chunk_size ∧ ¬ st.current.isEmpty then
    let chunks1 :=
      if (pyStrip st.current).isEmpty then st.chunks else st.chunks ++ [pyStrip st.current]
    let current1 :=
      if 0 < overlap ∧ ¬ st.current.isEmpty then
        let words := pySplitWS st.current
        let overlap_words :=
          if words.length > overlap / 4 then pyTakeLastSlice (overlap / 4) words
          else pyTakeLastSlice 10 words
        joinWith [' '] overlap_words ++ [' '] ++ para
      else para
    ⟨chunks1, current1⟩
  else if ¬ st.current.isEmpty then ⟨st.chunks, st.current ++ litNN ++ para⟩
  else ⟨st.chunks, para⟩

/-- The paragraph-based phase of `chunk_text`: split on the literal
separator, fold the paragraph loop, then append the final stripped buffer
if non-empty (document_service.py lines 430-462). -/
def paragraphChunks (text : Str) (chunk_size overlap : Nat) : List Str :=
  let st := (pySplitLitNN text).foldl (chunkStep chunk_size overlap) ⟨[], []⟩
  if (pyStrip st.current).isEmpty then st.chunks else st.chunks ++ [pyStrip st.current]

/-- Python `range(0, n, step)` for a positive step. -/
def rangeStep (n step : Nat) : List Nat :=
  (List.range ((n + step - 1) / step)).map (· * step)

/-- The word-window fallback loop of `chunk_text` (document_service.py
lines 466-472): for each window start `i` produced by
`range(0, len(words), chunk_size - overlap)`, join
`words[i : i + chunk_size]` and append its stripped form when non-empty. -/
def wordFallback (words : List Str) (chunk_size step : Nat) : List Str :=
  (rangeStep words.length step).foldl
    (fun acc i =>
      if (pyStrip (joinWith [' '] ((words.drop i).take chunk_size))).isEmpty then acc
      else acc ++ [pyStrip (joinWith [' '] ((words.drop i).take chunk_size))]) []

/-- `chunk_text(text, chunk_size=800, overlap=100)` from
document_service.py lines 427-474.  When the paragraph phase yields fewer
than 3 chunks the result is replaced by word-window chunks computed with
Python `range(0, len(words), chunk_size - overlap)`; `none` models the
`ValueError` Python raises for a zero step (`overlap = chunk_size`), and a
negative step (`overlap > chunk_size`) gives an empty `range`, hence `[]`. -/
def chunk_text (text : Str) (chunk_size overlap : Nat) : Option (List Str) :=
  let chunks := paragraphChunks text chunk_size overlap
  if chunks.length < 3 then
    if overlap < chunk_size then
      some (wordFallback (pySplitWS text) chunk_size (chunk_size - overlap))
    else if overlap = chunk_size then none
    else some []
  else some chunks

/-! ### Specification-side chunker

The spec (§4.1) describes the same algorithm but with the paragraph
boundary being the REAL two-character double newline.  The following
definitions state the spec's reading, to be compared with `chunk_text`
above, which follows the source. -/

/-- Helper for `splitRealNN`: split at the real two-character newline
pair, as the spec's "split text on paragraph boundaries (double newline)"
reads. -/
def splitRealNNAux : Str → Str → List Str
  | '\n' :: '\n' :: rest, acc => acc.reverse :: splitRealNNAux rest []
  | c :: rest, acc => splitRealNNAux rest (c :: acc)
  | [], acc => [acc.reverse]

/-- Split on the real double newline (specification reading of the
paragraph boundary). -/
def splitRealNN (s : Str) : List Str := splitRealNNAux s []

/-- The real two-character double-newline separator. -/
def realNN : Str := ['\n', '\n']

/-- Paragraph-loop step following the spec's wording: identical greedy
accumulation, but paragraphs joined by the real double newline, and the
overlap seed taken as the genuine trailing `overlap/4` words
(`takeLastWords`). -/
def chunkStepSpec (chunk_size overlap : Nat) (st : ChunkState) (para0 : Str) : ChunkState :=
  let para := pyStrip para0
  if para.isEmpty then st
  else if st.current.length + para.length + 2 > chunk_size ∧ ¬ st.current.isEmpty then
    let chunks1 :=
      if (pyStrip st.current).isEmpty then st.chunks else st.chunks ++ [pyStrip st.current]
    let current1 :=
      if 0 < overlap ∧ ¬ st.current.isEmpty then
        let words := pySplitWS st.current
        let overlap_words :=
          if words.length > overlap / 4 then takeLastWords (overlap / 4) words
          else takeLastWords 10 words
        joinWith [' '] overlap_words ++ [' '] ++ para
      else para
    ⟨chunks1, current1⟩
  else if ¬ st.current.isEmpty then ⟨st.chunks, st.current ++ realNN ++ para⟩
  else ⟨st.chunks, para⟩

/-- Paragraph phase following the spec's wording (real double-newline
boundaries). -/
def paragraphChunksSpec (text : Str) (chunk_size overlap : Nat) : List Str :=
  let st := (splitRealNN text).foldl (chunkStepSpec chunk_size overlap) ⟨[], []⟩
  if (pyStrip st.current).isEmpty then st.chunks else st.chunks ++ [pyStrip st.current]

/-- Full chunker following the spec's wording: paragraph phase at real
double newlines, same fewer-than-3 word-window fallback. -/
def chunk_text_spec (text : Str) (chunk_size overlap : Nat) : Option (List Str) :=
  let chunks := paragraphChunksSpec text chunk_size overlap
  if chunks.length < 3 then
    if overlap < chunk_size then
      some (wordFallback (pySplitWS text) chunk_size (chunk_size - overlap))
    else if overlap = chunk_size then none
    else some []
  else some chunks

/-- A text whose paragraphs are separated by real double newlines. -/
def nlParagraphInput : Str := "aaaa\n\nbbbb\n\ncccc\n\ndddd\n\neeee\n\nffff".toList

/-- The overlap seed as claim C8 words it: the trailing `overlap/4` words
of the just-closed chunk, or its last 10 words when the chunk has
`overlap/4` words or fewer. -/
def claimTrailingWords (k : Nat) (ws : List Str) : List Str :=
  if ws.length ≤ k then takeLastWords 10 ws else takeLastWords k ws

/-- The word-window chunks as claim C7 words them: one chunk per window of
`chunk_size` words taken at steps of `chunk_size − overlap` over the word
sequence of the text (the final window may be partial). -/
def specWindowChunks (text : Str) (chunk_size overlap : Nat) : List Str :=
  (rangeStep (pySplitWS text).length (chunk_size - overlap)).map
    (fun i => joinWith [' '] (((pySplitWS text).drop i).take chunk_size))

/-! ### The enhanced LangChain agent

`EnhancedLangChainAgent` (enhanced_langchain_agent.py).  The Chroma
vector store is modelled as a list of entries carrying the exact metadata
the agent attaches; Chroma's internally generated unique ids are modelled
by a monotone counter, and `vectorstore.delete(ids=...)` on the ids just
fetched for one `doc_id` is modelled as removal of that `doc_id`'s
entries.  The external `RecursiveCharacterTextSplitter` is an oracle
`splitter : String → List String`; Python's process-salted `hash` is an
oracle `pyhash : String → Int`. -/

/-- The metadata dict built for each chunk in `add_documents`
(enhanced_langchain_agent.py lines 261-274): identification fields plus the
four case-insensitive keyword flags. -/
structure ChunkMeta where
  doc_id : String
  chunk_id : String
  source : String
  chunk_index : Nat
  text_index : Nat
  content_hash : String
  contains_risk : Bool
  contains_security : Bool
  contains_monitoring : Bool
  contains_performance : Bool
deriving DecidableEq

/-- One stored chunk of the Chroma collection: generated id, page content,
metadata. -/
structure VEntry where
  entry_id : Nat
  content : String
  meta : ChunkMeta
deriving DecidableEq

/-- State of the agent that the claims touch: the vector store, the id
counter, the in-memory `document_cache` (a list of cache keys mapped to
`True`), and the active provider name. -/
structure AgentState where
  store : List VEntry
  next_id : Nat
  cache : List String
  provider : String
deriving DecidableEq

/-- Helper for `pyInStr`: whether `needle` occurs contiguously in the
second argument. -/
def pyInStrAux (needle : List Char) : List Char → Bool
  | [] => needle.isEmpty
  | c :: rest => needle.isPrefixOf (c :: rest) || pyInStrAux needle rest

/-- Python `needle in hay` on strings. -/
def pyInStr (needle hay : String) : Bool :=
  pyInStrAux needle.toList hay.toList

/-- Python `s.lower()` for the ASCII range (sufficient for the fixed
keyword vocabulary the agent scans for). -/
def pyStrToLower (s : String) : String :=
  String.mk (s.data.map Char.toLower)

/-- Metadata for chunk `j` of text block `i`
(enhanced_langchain_agent.py lines 261-274): `chunk_id` is
`f"{doc_id}_{i}_{j}"`, `source` is `filename or f"document_{i}"`, and each
`contains_*` flag records whether the lower-cased chunk contains the
keyword. -/
def mkChunkMeta (docId : String) (filename : Option String) (newHash : String)
    (i j : Nat) (chunk : String) : ChunkMeta :=
  let lower := pyStrToLower chunk
  { doc_id := docId
    chunk_id := docId ++ "_" ++ toString i ++ "_" ++ toString j
    source := filename.getD ("document_" ++ toString i)
    chunk_index := j
    text_index := i
    content_hash := newHash
    contains_risk := pyInStr "risk" lower
    contains_security := pyInStr "security" lower
    contains_monitoring := pyInStr "monitoring" lower
    contains_performance := pyInStr "performance" lower }

/-- The `documents` list built by the double loop of `add_documents`
(lines 257-278): for each text block `i`, each splitter chunk `j` becomes a
`(page_content, metadata)` pair, in order. -/
def buildDocuments (splitter : String → List String) (texts : List String)
    (docId : String) (filename : Option String) (newHash : String) :
    List (String × ChunkMeta) :=
  (texts.enum.map (fun it =>
    ((splitter it.2).enum.map (fun jc =>
      (jc.2, mkChunkMeta docId filename newHash it.1 jc.1 jc.2))))).flatten

/-- The `if documents:` tail of `add_documents` (lines 281-292): batch-add
the new entries (ids from the counter), record the cache key, return
`True`; with no documents nothing is stored and the cache is not touched,
but the call still returns `True`. -/
def storeNewDocuments (st : AgentState) (docs : List (String × ChunkMeta))
    (cacheKey : String) : Bool × AgentState :=
  match docs with
  | [] => (true, st)
  | _ :: _ =>
    (true,
      { st with
        store := st.store ++ docs.enum.map (fun ke => ⟨st.next_id + ke.1, ke.2.1, ke.2.2⟩)
        next_id := st.next_id + docs.length
        cache := cacheKey :: st.cache })

/-- `str(hash(''.join(texts)))`: the content fingerprint string stored in
each chunk's metadata (line 255) and embedded in the cache key (line 227). -/
def contentHashStr (pyhash : String → Int) (texts : List String) : String :=
  toString (pyhash (String.join texts))

/-- The ingestion cache key `f"{doc_id}_{hash(''.join(texts))}"`
(line 227). -/
def ingestCacheKey (pyhash : String → Int) (texts : List String)
    (docId : String) : String :=
  docId ++ "_" ++ contentHashStr pyhash texts

/-- `EnhancedLangChainAgent.add_documents(texts, doc_id, filename)`
(enhanced_langchain_agent.py lines 223-296).  Control flow, in source
order: (1) cache hit on `f"{doc_id}_{hash(''.join(texts))}"` returns
`True` immediately; (2) existing chunks for `doc_id` whose first stored
`content_hash` equals the new hash: record the cache key and return
`True`; (3) existing chunks with a different hash: delete them all; then
(4) split, build metadata, batch-add, cache, return `True`. -/
def add_documents (splitter : String → List String) (pyhash : String → Int)
    (st : AgentState) (texts : List String) (docId : String)
    (filename : Option String) : Bool × AgentState :=
  if st.cache.contains (ingestCacheKey pyhash texts docId) then (true, st)
  else
    let docs := buildDocuments splitter texts docId filename (contentHashStr pyhash texts)
    match st.store.filter (fun e => e.meta.doc_id == docId) with
    | e0 :: _ =>
      if e0.meta.content_hash == contentHashStr pyhash texts then
        (true, { st with cache := ingestCacheKey pyhash texts docId :: st.cache })
      else
        storeNewDocuments
          { st with store := st.store.filter (fun e => e.meta.doc_id != docId) }
          docs (ingestCacheKey pyhash texts docId)
    | [] => storeNewDocuments st docs (ingestCacheKey pyhash texts docId)

/-- One source attribution of an answer (lines 340-346): the first 200
characters of the chunk with newlines collapsed to spaces, plus `"..."`,
and the chunk metadata. -/
structure SourceInfo where
  chunk_index : Nat
  content_preview : String
  metadata : ChunkMeta
deriving DecidableEq

/-- The response dict `ask_question` returns (lines 331-337 and 353-359). -/
structure AskResponse where
  answer : String
  source_count : Nat
  sources : List SourceInfo
  search_successful : Bool
  llm_provider : String
deriving DecidableEq

/-- Retrieval through the Chroma retriever (`search_type="similarity"`,
`k`, optional `filter={"doc_id": ...}`): candidates are restricted by the
metadata filter, then the `k` most similar are returned.  The cosine
ranking itself lives in the external index; it is modelled as the stored
order, which no verified claim depends on. -/
def simSearch (store : List VEntry) (_query : String) (k : Nat)
    (docFilter : Option String) : List VEntry :=
  let candidates : List VEntry :=
    match docFilter with
    | some d => store.filter (fun e => e.meta.doc_id == d)
    | none => store
  candidates.take k

/-- The separator the "stuff" chain places between retrieved chunk texts. -/
def dblNewline : String := "\n\n"

/-- The provider-specific prompt of `_setup_qa_chain`, abstracted: it is
some injection of the provider name, the joined context and the question
(no verified claim depends on the exact template wording). -/
def buildQAPrompt (provider context question : String) : String :=
  provider ++ "\nContext: " ++ context ++ "\nQuestion: " ++ question ++ "\nAnswer: "

/-- Source attribution for the `i`-th retrieved chunk (lines 340-346). -/
def mkSourceInfo (i : Nat) (e : VEntry) : SourceInfo :=
  { chunk_index := i
    content_preview :=
      String.mk ((e.content.data.take 200).map (fun c => if c = '\n' then ' ' else c)) ++ "..."
    metadata := e.meta }

/-- The fallback answer text of `ask_question`'s `except` handler
(line 354). -/
def errorAnswerText (e : String) : String :=
  "Sorry, there was an error processing your question: " ++ e

/-- `EnhancedLangChainAgent.ask_question(question, doc_id)`
(enhanced_langchain_agent.py lines 298-359).  The `try` body retrieves the
top 4 chunks (scoped to `doc_id` when given), runs the QA chain — modelled
as the LLM oracle applied to the stuffed prompt — and on success returns
`search_successful=True` with the top-3 source previews; any raised
exception (`Except.error`) is caught and converted to the fixed apology
answer with `search_successful=False` and no sources.  The function is
total: no exception escapes. -/
def ask_question (llm : String → Except String String) (st : AgentState)
    (question : String) (docId : Option String) : AskResponse :=
  let docs := simSearch st.store question 4 docId
  let prompt := buildQAPrompt st.provider
    (String.intercalate dblNewline (docs.map (fun e => e.content))) question
  match llm prompt with
  | Except.ok ans =>
    { answer := ans
      source_count := docs.length
      sources := (docs.take 3).enum.map (fun ie => mkSourceInfo ie.1 ie.2)
      search_successful := true
      llm_provider := st.provider }
  | Except.error e =>
    { answer := errorAnswerText e
      source_count := 0
      sources := []
      search_successful := false
      llm_provider := st.provider }

/-- The `auto` arm of `_initialize_llm` (lines 116-126): priority
Gemini > Mistral > Ollama, first available wins. -/
def autoDetectProvider (gem mis : Bool) : String :=
  if gem then "gemini" else if mis then "mistral" else "ollama"

/-- `EnhancedLangChainAgent._initialize_llm(llm_provider, model_name)`
(lines 113-167), reduced to the provider finally selected.  `gem`/`mis`
are the values of `is_gemini_available()` / `is_mistral_available()`
(Ollama is assumed reachable, line 450).  After auto-detection the code
falls through the `gemini` stage (downgrading to `mistral` or `ollama`
when Gemini is unavailable), then the `mistral` stage (downgrading to
`ollama`), and defaults to Ollama. -/
def chooseLlmProvider (requested : String) (gem mis : Bool) : String :=
  let p1 := if requested == "auto" then autoDetectProvider gem mis else requested
  if p1 == "gemini" && gem then "gemini"
  else
    let p2 := if p1 == "gemini" then (if mis then "mistral" else "ollama") else p1
    if p2 == "mistral" && mis then "mistral"
    else "ollama"

/-- Whether a provider reports itself configured/available (spec side):
the two API providers by their availability flags, Ollama always. -/
def providerAvailable (gem mis : Bool) : String → Bool
  | "gemini" => gem
  | "mistral" => mis
  | "ollama" => true
  | _ => false

/-- The spec's strict priority order. -/
def providerPriority : List String := ["gemini", "mistral", "ollama"]

/-- First available provider of a priority chain (spec side); the chain
always ends in the terminal fallback `ollama`. -/
def firstAvailableProvider (gem mis : Bool) (chain : List String) : String :=
  ((chain.filter (providerAvailable gem mis)).head?).getD "ollama"

/-! ### The plain embedding service

`EmbeddingService` (embedding_service.py).  Entries carry the chunk id
`f"{doc_id}_{i}"`, the chunk text and the metadata
`{"doc_id": doc_id, "chunk_index": i}`; the embedding vector itself is
produced by the external sentence-transformer and carried opaquely by the
index, so it is not part of the model. -/

/-- One entry of the embedding service's Chroma collection. -/
structure EmbEntry where
  chunk_id : String
  content : String
  doc_id : String
  chunk_index : Nat
deriving DecidableEq

/-- State of `EmbeddingService`: the `documents` collection and
`current_doc_id`. -/
structure EmbState where
  collection : List EmbEntry
  current_doc_id : Option String
deriving DecidableEq

/-- `EmbeddingService.clear_all_documents` (embedding_service.py lines
30-39): delete the collection and recreate it empty; reset
`current_doc_id`. -/
def clear_all_documents (_st : EmbState) : EmbState :=
  { collection := [], current_doc_id := none }

/-- The entry stored for chunk `i` of a document
(embedding_service.py lines 51-61). -/
def mkEmbEntry (docId : String) (i : Nat) (chunk : String) : EmbEntry :=
  { chunk_id := docId ++ "_" ++ toString i
    content := chunk
    doc_id := docId
    chunk_index := i }

/-- `EmbeddingService.store_document(doc_id, chunks, clear_previous)`
(embedding_service.py lines 41-63).  The Python parameter default is
`clear_previous=True`; when set, the WHOLE collection is cleared first,
then `current_doc_id` is set and every chunk is embedded and added. -/
def store_document (st : EmbState) (docId : String) (chunks : List String)
    (clear_previous : Bool) : EmbState :=
  let st1 := if clear_previous then clear_all_documents st else st
  { collection := st1.collection ++ chunks.enum.map (fun ic => mkEmbEntry docId ic.1 ic.2)
    current_doc_id := some docId }

/-! ### Supporting lemmas about the Python string primitives -/

theorem dropWhile_head_false {α} (p : α → Bool) :
    ∀ (l : List α) a t, l.dropWhile p = a :: t → p a = false := by
  intro l
  induction l with
  | nil => intro a t h; simp [List.dropWhile] at h
  | cons c rest ih =>
    intro a t h
    rw [List.dropWhile_cons] at h
    by_cases hc : p c = true
    · exact ih a t (by rwa [if_pos hc] at h)
    · rw [if_neg hc] at h
      cases h
      exact Bool.eq_false_iff.mpr hc

theorem dropWhile_getLast? {α} (p : α → Bool) :
    ∀ (l : List α), l.dropWhile p ≠ [] → (l.dropWhile p).getLast? = l.getLast? := by
  intro l
  induction l with
  | nil => intro h; simp [List.dropWhile] at h
  | cons c rest ih =>
    intro h
    rw [List.dropWhile_cons]
    rw [List.dropWhile_cons] at h
    by_cases hc : p c = true
    · rw [if_pos hc] at h ⊢
      rcases rest with _ | ⟨d, rest'⟩
      · simp [List.dropWhile] at h
      · rw [ih h, List.getLast?_cons_cons]
    · rw [if_neg hc]

theorem head_append_left {α} (l l' : List α) (h : l ≠ []) :
    (l ++ l').head? = l.head? := by
  cases l with
  | nil => exact absurd rfl h
  | cons a t => rfl

theorem getLast?_append_right {α} : ∀ (l l' : List α), l' ≠ [] →
    (l ++ l').getLast? = l'.getLast? := by
  intro l
  induction l with
  | nil => intro l' _; rfl
  | cons a t ih =>
    intro l' h
    have ht : t ++ l' ≠ [] := by
      intro hx
      exact h (List.append_eq_nil.mp hx).2
    rw [List.cons_append]
    cases hu : t ++ l' with
    | nil => exact absurd hu ht
    | cons b u =>
      rw [List.getLast?_cons_cons, ← hu, ih l' h]

/-- The head of a non-empty strip result is not whitespace. -/
theorem pyStrip_head_not_space (s : Str) (a : Char) (t : Str)
    (h : pyStrip s = a :: t) : pyIsSpace a = false := by
  unfold pyStrip at h
  set u := s.dropWhile pyIsSpace with hu
  set d := u.reverse.dropWhile pyIsSpace with hd
  have hdne : d ≠ [] := by
    intro hx
    rw [hx] at h
    exact List.cons_ne_nil a t h.symm
  have h1 : d.getLast? = u.reverse.getLast? := dropWhile_getLast? pyIsSpace u.reverse hdne
  have h2 : u.reverse.getLast? = u.head? := List.getLast?_reverse u
  have h3 : d.reverse.head? = d.getLast? := List.head?_reverse d
  have h4 : d.reverse.head? = some a := by rw [h]; rfl
  have h5 : u.head? = some a := by rw [← h2, ← h1, ← h3, h4]
  rcases hu' : u with _ | ⟨b, t'⟩
  · rw [hu'] at h5; simp at h5
  · have hb : b = a := by rw [hu'] at h5; simpa using h5
    subst hb
    exact dropWhile_head_false pyIsSpace s b t' (by rw [← hu', hu])

/-- The last element of a non-empty strip result is not whitespace. -/
theorem pyStrip_getLast_not_space (s : Str) (b : Char)
    (h : (pyStrip s).getLast? = some b) : pyIsSpace b = false := by
  unfold pyStrip at h
  set u := s.dropWhile pyIsSpace with hu
  set d := u.reverse.dropWhile pyIsSpace with hd
  have h1 : d.reverse.getLast? = d.head? := List.getLast?_reverse d
  have h2 : d.head? = some b := by rw [← h1, h]
  rcases hd' : d with _ | ⟨c, t'⟩
  · rw [hd'] at h2; simp at h2
  · have hc : c = b := by rw [hd'] at h2; simpa using h2
    subst hc
    exact dropWhile_head_false pyIsSpace u.reverse c t' (by rw [← hd', hd])

/-- A list whose head and last element are not whitespace is unchanged by
`pyStrip`. -/
theorem pyStrip_eq_self (s : Str)
    (h1 : ∀ a, s.head? = some a → pyIsSpace a = false)
    (h2 : ∀ b, s.getLast? = some b → pyIsSpace b = false) :
    pyStrip s = s := by
  cases hs : s with
  | nil => rfl
  | cons c t =>
    subst hs
    have hc : pyIsSpace c = false := h1 c rfl
    unfold pyStrip
    rw [List.dropWhile_cons, if_neg (by simp [hc])]
    rcases hr : (c :: t).reverse with _ | ⟨b, rt⟩
    · simp at hr
    · have hb : pyIsSpace b = false := by
        apply h2
        rw [← List.head?_reverse, hr]
        rfl
      rw [List.dropWhile_cons, if_neg (by simp [hb]), ← hr, List.reverse_reverse]

/-- `pyStrip` is idempotent. -/
theorem pyStrip_idem (s : Str) : pyStrip (pyStrip s) = pyStrip s := by
  rcases hs : pyStrip s with _ | ⟨a, t⟩
  · rfl
  · rw [← hs]
    apply pyStrip_eq_self
    · intro a' ha'
      apply pyStrip_head_not_space s a' (t := (pyStrip s).tail)
      rw [hs] at ha' ⊢
      cases ha'
      rfl
    · intro b hb
      exact pyStrip_getLast_not_space s b hb

/-- Every word produced by `splitWSAux` is non-empty and free of
whitespace characters, provided the accumulator is. -/
theorem splitWSAux_words : ∀ (s acc : Str),
    (∀ c ∈ acc, pyIsSpace c = false) →
    ∀ w ∈ splitWSAux s acc, w ≠ [] ∧ ∀ c ∈ w, pyIsSpace c = false := by
  intro s
  induction s with
  | nil =>
    intro acc hacc w hw
    unfold splitWSAux at hw
    by_cases ha : acc.isEmpty
    · rw [if_pos ha] at hw; simp at hw
    · rw [if_neg ha] at hw
      rcases List.mem_singleton.mp hw with rfl
      refine ⟨by simpa [List.isEmpty_iff] using ha, ?_⟩
      intro c hc
      exact hacc c (List.mem_reverse.mp hc)
  | cons c rest ih =>
    intro acc hacc w hw
    unfold splitWSAux at hw
    by_cases hc : pyIsSpace c = true
    · rw [if_pos hc] at hw
      rcases List.mem_append.mp hw with hw1 | hw2
      · by_cases ha : acc.isEmpty
        · rw [if_pos ha] at hw1; simp at hw1
        · rw [if_neg ha] at hw1
          rcases List.mem_singleton.mp hw1 with rfl
          refine ⟨by simpa [List.isEmpty_iff] using ha, ?_⟩
          intro d hd
          exact hacc d (List.mem_reverse.mp hd)
      · exact ih [] (by intro d hd; simp at hd) w hw2
    · rw [if_neg hc] at hw
      refine ih (c :: acc) ?_ w hw
      intro d hd
      rcases List.mem_cons.mp hd with rfl | hd'
      · exact Bool.eq_false_iff.mpr hc
      · exact hacc d hd'

/-- Every word of `pySplitWS s` is non-empty and whitespace-free. -/
theorem pySplitWS_words (s : Str) :
    ∀ w ∈ pySplitWS s, w ≠ [] ∧ ∀ c ∈ w, pyIsSpace c = false :=
  splitWSAux_words s [] (by intro c hc; simp at hc)

theorem joinWith_cons_cons (sep w w2 : Str) (ws : List Str) :
    joinWith sep (w :: w2 :: ws) = w ++ sep ++ joinWith sep (w2 :: ws) := by
  simp [joinWith]

/-- The head of a join is the head of the first word. -/
theorem joinWith_head? (sep : Str) (w : Str) (ws : List Str) (hw : w ≠ []) :
    (joinWith sep (w :: ws)).head? = w.head? := by
  cases ws with
  | nil => rfl
  | cons w2 ws' =>
    rw [joinWith_cons_cons, List.append_assoc]
    exact head_append_left w _ hw

/-- The last element of a join is the last element of the last word. -/
theorem joinWith_getLast? (sep : Str) :
    ∀ (ws : List Str), ws ≠ [] → (∀ w ∈ ws, w ≠ []) →
    ∃ w ∈ ws, (joinWith sep ws).getLast? = w.getLast? := by
  intro ws
  induction ws with
  | nil => intro h; exact absurd rfl h
  | cons w ws' ih =>
    intro _ hne
    cases ws' with
    | nil => exact ⟨w, by simp, rfl⟩
    | cons w2 ws'' =>
      obtain ⟨v, hv, hlast⟩ := ih (by simp) (by intro x hx; exact hne x (List.mem_cons_of_mem w hx))
      have hw2 : w2 ≠ [] := hne w2 (by simp)
      have hjne : joinWith sep (w2 :: ws'') ≠ [] := by
        intro hx
        have hh := joinWith_head? sep w2 ws'' hw2
        rw [hx] at hh
        cases hw2' : w2 with
        | nil => exact absurd hw2' hw2
        | cons a t => rw [hw2'] at hh; simp at hh
      refine ⟨v, List.mem_cons_of_mem w hv, ?_⟩
      rw [joinWith_cons_cons, List.append_assoc]
      rw [getLast?_append_right w _ (by
            intro hx
            exact hjne (List.append_eq_nil.mp hx).2),
          getLast?_append_right sep _ hjne, hlast]

/-- A join of non-empty whitespace-free words is unchanged by `pyStrip`
and non-empty. -/
theorem pyStrip_joinWith (ws : List Str) (hne : ws ≠ [])
    (hw : ∀ w ∈ ws, w ≠ [] ∧ ∀ c ∈ w, pyIsSpace c = false) :
    pyStrip (joinWith [' '] ws) = joinWith [' '] ws ∧ joinWith [' '] ws ≠ [] := by
  cases ws with
  | nil => exact absurd rfl hne
  | cons w ws' =>
    have hwne : w ≠ [] := (hw w (by simp)).1
    have hhead : (joinWith [' '] (w :: ws')).head? = w.head? :=
      joinWith_head? [' '] w ws' hwne
    have hjoin_ne : joinWith [' '] (w :: ws') ≠ [] := by
      intro hx
      rw [hx] at hhead
      cases hw' : w with
      | nil => exact absurd hw' hwne
      | cons a t => rw [hw'] at hhead; simp at hhead
    refine ⟨?_, hjoin_ne⟩
    apply pyStrip_eq_self
    · intro a ha
      rw [hhead] at ha
      have : a ∈ w := by
        cases hw' : w with
        | nil => exact absurd hw' hwne
        | cons b t =>
          rw [hw'] at ha
          cases ha
          simp [hw']
      exact (hw w (by simp)).2 a this
    · intro b hb
      obtain ⟨v, hv, hlast⟩ := joinWith_getLast? [' '] (w :: ws') (by simp)
        (fun x hx => (hw x hx).1)
      rw [hlast] at hb
      have : b ∈ v := List.mem_of_getLast?_eq_some hb
      exact (hw v hv).2 b this

/-- Every window start produced by `rangeStep n step` (positive step) is
below `n`. -/
theorem rangeStep_mem_lt (n step : Nat) (hstep : 0 < step) :
    ∀ i ∈ rangeStep n step, i < n := by
  intro i hi
  unfold rangeStep at hi
  obtain ⟨k, hk, rfl⟩ := List.mem_map.mp hi
  have hk' : k < (n + step - 1) / step := List.mem_range.mp hk
  have h1 : (k + 1) * step ≤ ((n + step - 1) / step) * step :=
    Nat.mul_le_mul_right step hk'
  have h2 : ((n + step - 1) / step) * step ≤ n + step - 1 :=
    Nat.div_mul_le_self (n + step - 1) step
  have h3 : (k + 1) * step = k * step + step := by ring
  omega

theorem foldl_strip_append (g : Nat → Str) :
    ∀ (l : List Nat), (∀ i ∈ l, pyStrip (g i) = g i ∧ g i ≠ []) →
    ∀ acc, l.foldl
        (fun acc i => if (pyStrip (g i)).isEmpty then acc else acc ++ [pyStrip (g i)]) acc
      = acc ++ l.map g := by
  intro l
  induction l with
  | nil => intro _ acc; simp
  | cons i l' ih =>
    intro hg acc
    obtain ⟨h1, h2⟩ := hg i (List.mem_cons_self i l')
    have hcond : (pyStrip (g i)).isEmpty = false := by
      rw [h1]
      simpa [List.isEmpty_iff] using h2
    have haccval :
        (if (pyStrip (g i)).isEmpty = true then acc else acc ++ [pyStrip (g i)])
          = acc ++ [g i] := by
      rw [hcond, h1]
      simp
    rw [List.foldl_cons, haccval,
      ih (fun j hj => hg j (List.mem_cons_of_mem i hj)) (acc ++ [g i])]
    simp

theorem foldl_strip_members (g : Nat → Str) :
    ∀ (l : List Nat) (acc : List Str), (∀ c ∈ acc, pyStrip c ≠ []) →
    ∀ c ∈ l.foldl
        (fun acc i => if (pyStrip (g i)).isEmpty then acc else acc ++ [pyStrip (g i)]) acc,
      pyStrip c ≠ [] := by
  intro l
  induction l with
  | nil => intro acc hacc c hc; exact hacc c hc
  | cons i l' ih =>
    intro acc hacc c hc
    rw [List.foldl_cons] at hc
    by_cases hcond : (pyStrip (g i)).isEmpty = true
    · rw [if_pos hcond] at hc
      exact ih acc hacc c hc
    · rw [if_neg hcond] at hc
      refine ih _ ?_ c hc
      intro d hd
      rcases List.mem_append.mp hd with h | h
      · exact hacc d h
      · rcases List.mem_singleton.mp h with rfl
        rw [pyStrip_idem]
        simpa [List.isEmpty_iff] using hcond

/-- The fallback loop never filters a window out: each window chunk is a
join of non-empty whitespace-free words, so its stripped form is itself and
non-empty; hence the loop is exactly a map over the window starts. -/
theorem wordFallback_eq (words : List Str) (cs step : Nat)
    (hw : ∀ w ∈ words, w ≠ [] ∧ ∀ c ∈ w, pyIsSpace c = false)
    (hcs : 0 < cs) (hstep : 0 < step) :
    wordFallback words cs step =
      (rangeStep words.length step).map
        (fun i => joinWith [' '] ((words.drop i).take cs)) := by
  unfold wordFallback
  have hprops : ∀ i ∈ rangeStep words.length step,
      pyStrip (joinWith [' '] ((words.drop i).take cs))
          = joinWith [' '] ((words.drop i).take cs)
      ∧ joinWith [' '] ((words.drop i).take cs) ≠ [] := by
    intro i hi
    have hilt : i < words.length := rangeStep_mem_lt words.length step hstep i hi
    have hdropne : words.drop i ≠ [] := by
      intro hx
      have := List.drop_eq_nil_iff.mp hx
      omega
    have htakene : (words.drop i).take cs ≠ [] := by
      cases hd : words.drop i with
      | nil => exact absurd hd hdropne
      | cons a t =>
        cases cs with
        | zero => omega
        | succ m => simp [hd]
    have hmem : ∀ w ∈ (words.drop i).take cs,
        w ≠ [] ∧ ∀ c ∈ w, pyIsSpace c = false := by
      intro w hwmem
      exact hw w (List.mem_of_mem_drop (List.mem_of_mem_take hwmem))
    exact pyStrip_joinWith _ htakene hmem
  exact foldl_strip_append _ _ hprops []

theorem wordFallback_members (words : List Str) (cs step : Nat) :
    ∀ c ∈ wordFallback words cs step, pyStrip c ≠ [] := by
  unfold wordFallback
  exact foldl_strip_members _ _ [] (by intro c hc; simp at hc)

/-- `chunkStep` preserves the invariant that every emitted chunk is
non-empty after stripping. -/
theorem chunkStep_preserves (cs ov : Nat) (st : ChunkState) (p : Str)
    (h : ∀ c ∈ st.chunks, pyStrip c ≠ []) :
    ∀ c ∈ (chunkStep cs ov st p).chunks, pyStrip c ≠ [] := by
  intro c hc
  simp only [chunkStep] at hc
  split at hc
  · exact h c hc
  · split at hc
    · dsimp only at hc
      split at hc
      · exact h c hc
      · rename_i hguard
        rcases List.mem_append.mp hc with h1 | h2
        · exact h c h1
        · rcases List.mem_singleton.mp h2 with rfl
          rw [pyStrip_idem]
          simpa [List.isEmpty_iff] using hguard
    · split at hc
      · dsimp only at hc
        exact h c hc
      · dsimp only at hc
        exact h c hc

theorem foldl_chunkStep_inv (cs ov : Nat) : ∀ (ps : List Str) (st : ChunkState),
    (∀ c ∈ st.chunks, pyStrip c ≠ []) →
    ∀ c ∈ (ps.foldl (chunkStep cs ov) st).chunks, pyStrip c ≠ [] := by
  intro ps
  induction ps with
  | nil => intro st h c hc; exact h c hc
  | cons p ps' ih =>
    intro st h c hc
    rw [List.foldl_cons] at hc
    exact ih _ (chunkStep_preserves cs ov st p h) c hc

theorem paragraphChunks_members (text : Str) (cs ov : Nat) :
    ∀ c ∈ paragraphChunks text cs ov, pyStrip c ≠ [] := by
  intro c hc
  simp only [paragraphChunks] at hc
  split at hc
  · exact foldl_chunkStep_inv cs ov (pySplitLitNN text) ⟨[], []⟩
      (by intro d hd; simp at hd) c hc
  · rcases List.mem_append.mp hc with h1 | h2
    · exact foldl_chunkStep_inv cs ov (pySplitLitNN text) ⟨[], []⟩
        (by intro d hd; simp at hd) c h1
    · rcases List.mem_singleton.mp h2 with rfl
      rw [pyStrip_idem]
      next hguard =>
        simpa [List.isEmpty_iff] using hguard

/-! ### Claim theorems for the chunker -/

/-- Claim C2 (code_bug evidence): on a text whose paragraphs are separated
by the real two-character double newline, the source's `chunk_text` never
splits (its separator is the literal backslash-n-backslash-n sequence), so
the whole text is one paragraph, the paragraph phase yields a single chunk,
and the word-window fallback fires — while the spec's double-newline
splitting yields three paragraph-based chunks.  The claim (split at the
two-character newline-newline boundary) is the evident intent:
`chunk_text`'s own size check reserves `+ 2` characters for the separator
it appends, yet the appended literal is 4 characters, and the same file's
`_extract_from_text` counts "lines" by splitting on the same literal. -/
theorem chunk_text_literal_backslash_split_divergence :
    chunk_text nlParagraphInput 10 0 = some ["aaaa bbbb cccc dddd eeee ffff".toList]
    ∧ chunk_text_spec nlParagraphInput 10 0 =
        some ["aaaa\n\nbbbb".toList, "cccc\n\ndddd".toList, "eeee\n\nffff".toList]
    ∧ chunk_text nlParagraphInput 10 0 ≠ chunk_text_spec nlParagraphInput 10 0 := by
  refine ⟨by decide, by decide, by decide⟩

/-- Claim C7: whenever the paragraph phase yields fewer than 3 chunks (and
the parameters are sane, `overlap < chunk_size`), `chunk_text` discards the
paragraph chunks and returns exactly one chunk per word window of
`chunk_size` words at steps of `chunk_size − overlap`, the final partial
window included (`specWindowChunks`).  For empty or whitespace-only input
`pySplitWS text = []`, so `specWindowChunks` is `[]` and no chunk is
emitted. -/
theorem chunk_text_word_window_fallback (text : Str) (cs ov : Nat)
    (hov : ov < cs) (h3 : (paragraphChunks text cs ov).length < 3) :
    chunk_text text cs ov = some (specWindowChunks text cs ov) := by
  unfold chunk_text
  rw [if_pos h3, if_pos hov]
  unfold specWindowChunks
  congr 1
  exact wordFallback_eq (pySplitWS text) cs (cs - ov) (pySplitWS_words text)
    (by omega) (by omega)

/-- Witness for `chunk_text_word_window_fallback`: a two-word text with
`chunk_size = 2`, `overlap = 1` (windows at starts 0 and 1), and a
whitespace-only text (no chunk emitted). -/
theorem chunk_text_word_window_fallback_witness :
    chunk_text "hello world".toList 2 1 = some (specWindowChunks "hello world".toList 2 1)
    ∧ chunk_text "  ".toList 2 1 = some (specWindowChunks "  ".toList 2 1)
    ∧ specWindowChunks "hello world".toList 2 1 = ["hello world".toList, "world".toList]
    ∧ specWindowChunks "  ".toList 2 1 = [] := by
  refine ⟨chunk_text_word_window_fallback "hello world".toList 2 1 (by decide) (by decide),
    chunk_text_word_window_fallback "  ".toList 2 1 (by decide) (by decide),
    by decide, by decide⟩

/-- Claim C9: every chunk `chunk_text` returns (on any input on which it
returns at all) is non-empty after trimming whitespace. -/
theorem chunk_text_chunks_nonempty (text : Str) (cs ov : Nat) (res : List Str)
    (h : chunk_text text cs ov = some res) :
    ∀ c ∈ res, pyStrip c ≠ [] := by
  simp only [chunk_text] at h
  split at h
  · split at h
    · cases h
      exact wordFallback_members (pySplitWS text) cs (cs - ov)
    · split at h
      · exact absurd h (by simp)
      · cases h
        intro c hc
        simp at hc
  · cases h
    exact paragraphChunks_members text cs ov

/-- Witness for `chunk_text_chunks_nonempty` on a concrete run. -/
theorem chunk_text_chunks_nonempty_witness :
    pyStrip "hello world".toList ≠ [] :=
  chunk_text_chunks_nonempty "hello world".toList 2 1
    ["hello world".toList, "world".toList] (by decide) "hello world".toList (by decide)

/-- Claim C8 (counterexample): with `overlap = 2` (so `overlap/4 = 0`) the
closed chunk `"aa bb cc"` has more than `0` words, hence the claim predicts
the next chunk is seeded with the trailing `0` words — i.e. it begins with
just the next paragraph.  The code instead evaluates `words[-0:]`, which is
the WHOLE word list, and seeds the next chunk with every word of the closed
chunk. -/
theorem chunkStep_overlap_seed_counterexample :
    (chunkStep 10 2 ⟨[], "aa bb cc".toList⟩ "dd".toList).current = "aa bb cc dd".toList
    ∧ (chunkStep 10 2 ⟨[], "aa bb cc".toList⟩ "dd".toList).current ≠
        joinWith [' '] (claimTrailingWords (2 / 4) (pySplitWS "aa bb cc".toList))
          ++ [' '] ++ pyStrip "dd".toList := by
  exact ⟨by decide, by decide⟩

/-- Claim C8 (amended): for `overlap ≥ 4` (so `overlap/4 ≥ 1` and Python's
`words[-overlap//4:]` really is a trailing slice), whenever the paragraph
loop closes a chunk — the incoming paragraph is non-empty after stripping,
the buffer is non-empty, and the size check trips — the next buffer is
exactly the trailing `overlap/4` words of the just-closed chunk (or its
last 10 words when it has at most `overlap/4` words), a space, then the
stripped next paragraph. -/
theorem chunkStep_overlap_seed (cs ov : Nat) (st : ChunkState) (para : Str)
    (hov : 4 ≤ ov)
    (hp : (pyStrip para).isEmpty = false)
    (hc : st.current.isEmpty = false)
    (hclose : st.current.length + (pyStrip para).length + 2 > cs) :
    (chunkStep cs ov st para).current =
      joinWith [' '] (claimTrailingWords (ov / 4) (pySplitWS st.current))
        ++ [' '] ++ pyStrip para := by
  have hov0 : 0 < ov := lt_of_lt_of_le (by norm_num) hov
  have hk : ov / 4 ≠ 0 := Nat.ne_of_gt (Nat.div_pos hov (by norm_num))
  unfold chunkStep
  rw [if_neg (by simp [hp]), if_pos ⟨hclose, by simp [hc]⟩]
  simp only [if_pos (show 0 < ov ∧ ¬ st.current.isEmpty = true from ⟨hov0, by simp [hc]⟩)]
  unfold claimTrailingWords pyTakeLastSlice takeLastWords
  rcases Nat.lt_or_ge (ov / 4) (pySplitWS st.current).length with h | h
  · rw [if_pos h, if_neg hk, if_neg (Nat.not_le_of_lt h)]
  · rw [if_neg (Nat.not_lt_of_le h), if_neg (by norm_num), if_pos h]

/-- Witness for `chunkStep_overlap_seed` at `chunk_size = 10`,
`overlap = 8`, closed chunk `"aa bb cc"`, next paragraph `"dd"`. -/
theorem chunkStep_overlap_seed_witness :
    (chunkStep 10 8 ⟨[], "aa bb cc".toList⟩ "dd".toList).current =
      joinWith [' '] (claimTrailingWords (8 / 4) (pySplitWS "aa bb cc".toList))
        ++ [' '] ++ pyStrip "dd".toList :=
  chunkStep_overlap_seed 10 8 ⟨[], "aa bb cc".toList⟩ "dd".toList
    (by decide) (by decide) (by decide) (by decide)

/-! ### Supporting lemmas about the agent model -/

theorem storeNewDocuments_nil (st : AgentState) (key : String) :
    storeNewDocuments st [] key = (true, st) := rfl

theorem filter_ne_filter_eq (l : List VEntry) (d : String) :
    (l.filter (fun e => e.meta.doc_id != d)).filter (fun e => e.meta.doc_id == d) = [] := by
  induction l with
  | nil => rfl
  | cons e t ih =>
    simp only [List.filter_cons]
    by_cases h : (e.meta.doc_id == d) = true
    · simp [bne, h, ih]
    · simp [bne, h, ih, List.filter_cons]

theorem filter_eq_and_ne (l : List VEntry) (d : String) :
    l.filter (fun a => a.meta.doc_id == d && a.meta.doc_id != d) = [] := by
  induction l with
  | nil => rfl
  | cons e t ih =>
    simp only [List.filter_cons]
    by_cases h : (e.meta.doc_id == d) = true
    · simp [bne, h, ih]
    · simp [h, ih]

theorem simSearch_empty (store : List VEntry) (query : String) (d : String)
    (hempty : store.filter (fun e => e.meta.doc_id == d) = []) :
    simSearch store query 4 (some d) = [] := by
  simp [simSearch, hempty]

/-! ### Claim theorems for the agent -/

/-- Claim C6: `ask_question` never lets an exception escape; whenever the
QA-chain call raises (the oracle returns `Except.error e`), the caller
receives the well-formed failure response: the apology answer text carrying
the error, `search_successful = false`, no sources. -/
theorem ask_question_catches_failure (llm : String → Except String String)
    (st : AgentState) (question : String) (docId : Option String) (e : String)
    (h : llm (buildQAPrompt st.provider
        (String.intercalate dblNewline
          ((simSearch st.store question 4 docId).map (fun x => x.content))) question)
      = Except.error e) :
    ask_question llm st question docId =
      { answer := errorAnswerText e
        source_count := 0
        sources := []
        search_successful := false
        llm_provider := st.provider } := by
  simp only [ask_question]
  rw [h]

/-- Witness for `ask_question_catches_failure` with a provider oracle that
always raises. -/
theorem ask_question_catches_failure_witness :
    ask_question (fun _ => Except.error "boom") ⟨[], 0, [], "ollama"⟩ "q" none =
      { answer := errorAnswerText "boom"
        source_count := 0
        sources := []
        search_successful := false
        llm_provider := "ollama" } :=
  ask_question_catches_failure (fun _ => Except.error "boom") ⟨[], 0, [], "ollama"⟩
    "q" none "boom" rfl

/-- Claim C1 (counterexample): the index holds one chunk, belonging to
`doc2`, and `ask_question` is asked about `doc1` — zero chunks are
retrieved.  The claim says the returned Answer has `success=false`; the
code returns `search_successful = true` whenever the chain call succeeds,
with no zero-chunk special case (the fixed "no relevant content" answer
exists only in the simple keyword pipeline of app_flask.py). -/
theorem ask_question_zero_chunks_counterexample :
    ([(⟨0, "hello", mkChunkMeta "doc2" (some "f.pdf") "99" 0 0 "hello"⟩ : VEntry)].filter
        (fun e => e.meta.doc_id == "doc1") = [])
    ∧ (ask_question (fun _ => Except.ok "model answer")
        ⟨[⟨0, "hello", mkChunkMeta "doc2" (some "f.pdf") "99" 0 0 "hello"⟩], 1, [], "ollama"⟩
        "q" (some "doc1")).search_successful = true
    ∧ (ask_question (fun _ => Except.ok "model answer")
        ⟨[⟨0, "hello", mkChunkMeta "doc2" (some "f.pdf") "99" 0 0 "hello"⟩], 1, [], "ollama"⟩
        "q" (some "doc1")).sources = [] := by
  refine ⟨by decide, by decide, by decide⟩

/-- Claim C1 (amended): when the index holds zero chunks for the requested
`doc_id`, `ask_question` returns an Answer with empty sources and zero
source count and does not raise; `search_successful` is `true` when the
generation call succeeds and `false` only when it raises — the zero-chunk
case is not detected specially. -/
theorem ask_question_zero_chunks (llm : String → Except String String)
    (st : AgentState) (question : String) (d : String)
    (hempty : st.store.filter (fun e => e.meta.doc_id == d) = []) :
    (ask_question llm st question (some d)).sources = []
    ∧ (ask_question llm st question (some d)).source_count = 0
    ∧ (∀ a, llm (buildQAPrompt st.provider "" question) = Except.ok a →
        ask_question llm st question (some d) =
          { answer := a, source_count := 0, sources := [],
            search_successful := true, llm_provider := st.provider })
    ∧ (∀ e, llm (buildQAPrompt st.provider "" question) = Except.error e →
        ask_question llm st question (some d) =
          { answer := errorAnswerText e, source_count := 0, sources := [],
            search_successful := false, llm_provider := st.provider }) := by
  have hdocs : simSearch st.store question 4 (some d) = [] :=
    simSearch_empty st.store question d hempty
  have hctx : String.intercalate dblNewline
      (([] : List VEntry).map (fun e => e.content)) = "" := rfl
  refine ⟨?_, ?_, ?_, ?_⟩
  · simp only [ask_question, hdocs]
    cases hllm : llm (buildQAPrompt st.provider
        (String.intercalate dblNewline (([] : List VEntry).map (fun e => e.content)))
        question) with
    | ok a => rfl
    | error e => rfl
  · simp only [ask_question, hdocs]
    cases hllm : llm (buildQAPrompt st.provider
        (String.intercalate dblNewline (([] : List VEntry).map (fun e => e.content)))
        question) with
    | ok a => rfl
    | error e => rfl
  · intro a ha
    simp only [ask_question, hdocs, hctx, ha]
    rfl
  · intro e he
    simp only [ask_question, hdocs, hctx, he]

/-- Witness for `ask_question_zero_chunks` on an empty index. -/
theorem ask_question_zero_chunks_witness :
    (ask_question (fun _ => Except.ok "ans") ⟨[], 0, [], "ollama"⟩ "q" (some "doc1")).sources = []
    ∧ ask_question (fun _ => Except.ok "ans") ⟨[], 0, [], "ollama"⟩ "q" (some "doc1") =
      { answer := "ans", source_count := 0, sources := [],
        search_successful := true, llm_provider := "ollama" } :=
  ⟨(ask_question_zero_chunks (fun _ => Except.ok "ans") ⟨[], 0, [], "ollama"⟩ "q" "doc1" rfl).1,
   (ask_question_zero_chunks (fun _ => Except.ok "ans") ⟨[], 0, [], "ollama"⟩ "q" "doc1" rfl).2.2.1
     "ans" rfl⟩

theorem add_documents_cache_hit (splitter : String → List String)
    (pyhash : String → Int) (st : AgentState) (texts : List String)
    (docId : String) (filename : Option String)
    (h : st.cache.contains (ingestCacheKey pyhash texts docId) = true) :
    add_documents splitter pyhash st texts docId filename = (true, st) := by
  unfold add_documents
  rw [if_pos h]

/-- Claim C4: ingesting the same texts under the same `doc_id` twice is
idempotent — the second `add_documents` call returns `True` and leaves the
whole agent state (vector store, chunk ids, counter, cache) exactly as the
first call left it.  The second call is answered by the ingestion cache
(or, for a degenerate document yielding zero chunks, by finding nothing to
re-index), so nothing is re-embedded or re-indexed. -/
theorem add_documents_idempotent (splitter : String → List String)
    (pyhash : String → Int) (st : AgentState) (texts : List String)
    (docId : String) (filename : Option String) :
    add_documents splitter pyhash
        (add_documents splitter pyhash st texts docId filename).2 texts docId filename
      = (true, (add_documents splitter pyhash st texts docId filename).2) := by
  by_cases h1 : st.cache.contains (ingestCacheKey pyhash texts docId) = true
  · have hfst := add_documents_cache_hit splitter pyhash st texts docId filename h1
    rw [hfst]
    exact add_documents_cache_hit splitter pyhash st texts docId filename h1
  · have h1' : st.cache.contains (ingestCacheKey pyhash texts docId) = false := by
      simpa using h1
    have h1m : ingestCacheKey pyhash texts docId ∉ st.cache := by
      simpa using h1
    rcases hflt : st.store.filter (fun e => e.meta.doc_id == docId) with _ | ⟨e0, rest⟩
    · rcases hdocs : buildDocuments splitter texts docId filename
          (contentHashStr pyhash texts) with _ | ⟨d0, ds⟩
      · have hfst : add_documents splitter pyhash st texts docId filename = (true, st) := by
          simp [add_documents, h1', h1m, hflt, hdocs, storeNewDocuments]
        rw [hfst]
        exact hfst
      · have hcache2 : ((add_documents splitter pyhash st texts docId filename).2).cache.contains
            (ingestCacheKey pyhash texts docId) = true := by
          simp [add_documents, h1', h1m, hflt, hdocs, storeNewDocuments, List.contains_cons]
        exact add_documents_cache_hit splitter pyhash _ texts docId filename hcache2
    · by_cases hhash : (e0.meta.content_hash == contentHashStr pyhash texts) = true
      · have hcache2 : ((add_documents splitter pyhash st texts docId filename).2).cache.contains
            (ingestCacheKey pyhash texts docId) = true := by
          simp [add_documents, h1', h1m, hflt, hhash, List.contains_cons]
        exact add_documents_cache_hit splitter pyhash _ texts docId filename hcache2
      · have hhash' : (e0.meta.content_hash == contentHashStr pyhash texts) = false := by
          simpa using hhash
        rcases hdocs : buildDocuments splitter texts docId filename
            (contentHashStr pyhash texts) with _ | ⟨d0, ds⟩
        · have hfst : add_documents splitter pyhash st texts docId filename =
              (true, { st with store := st.store.filter (fun e => e.meta.doc_id != docId) }) := by
            simp [add_documents, h1', h1m, hflt, hhash', hdocs, storeNewDocuments]
          rw [hfst]
          simp [add_documents, h1', h1m, hdocs, filter_ne_filter_eq, filter_eq_and_ne, storeNewDocuments]
        · have hcache2 : ((add_documents splitter pyhash st texts docId filename).2).cache.contains
              (ingestCacheKey pyhash texts docId) = true := by
            simp [add_documents, h1', h1m, hflt, hhash', hdocs, storeNewDocuments, List.contains_cons]
          exact add_documents_cache_hit splitter pyhash _ texts docId filename hcache2

theorem enum_map_snd' {α : Type} (l : List α) : l.enum.map Prod.snd = l := by
  rw [List.enum_eq_enumFrom]
  exact List.enumFrom_map_snd 0 l

/-- The page contents of the built documents are exactly the splitter's
chunks of every text block, in order. -/
theorem buildDocuments_map_fst (splitter : String → List String) (texts : List String)
    (docId : String) (filename : Option String) (h : String) :
    (buildDocuments splitter texts docId filename h).map Prod.fst
      = (texts.map splitter).flatten := by
  unfold buildDocuments
  rw [List.map_flatten, List.map_map]
  congr 1
  have h1 : ((List.map Prod.fst) ∘ fun it : Nat × String =>
      (splitter it.2).enum.map (fun jc => (jc.2, mkChunkMeta docId filename h it.1 jc.1 jc.2)))
      = fun it : Nat × String => splitter it.2 := by
    funext it
    simp only [Function.comp_apply, List.map_map]
    have h2 : (Prod.fst ∘ fun jc : Nat × String =>
        (jc.2, mkChunkMeta docId filename h it.1 jc.1 jc.2))
        = (Prod.snd : Nat × String → String) := rfl
    rw [h2, enum_map_snd']
  rw [h1]
  have h3 : (fun it : Nat × String => splitter it.2)
      = (splitter ∘ (Prod.snd : Nat × String → String)) := rfl
  rw [h3, ← List.map_map, enum_map_snd']

/-- Every metadata record built by `buildDocuments` carries the requested
`doc_id` and the new content hash. -/
theorem buildDocuments_mem (splitter : String → List String) (texts : List String)
    (docId : String) (filename : Option String) (h : String) :
    ∀ pr ∈ buildDocuments splitter texts docId filename h,
      pr.2.doc_id = docId ∧ pr.2.content_hash = h := by
  intro pr hpr
  unfold buildDocuments at hpr
  rw [List.mem_flatten] at hpr
  obtain ⟨inner, hinner, hmem⟩ := hpr
  rw [List.mem_map] at hinner
  obtain ⟨it, _, rfl⟩ := hinner
  rw [List.mem_map] at hmem
  obtain ⟨jc, _, rfl⟩ := hmem
  exact ⟨rfl, rfl⟩

theorem entries_map_content (docs : List (String × ChunkMeta)) (n : Nat) :
    (docs.enum.map (fun ke => (⟨n + ke.1, ke.2.1, ke.2.2⟩ : VEntry))).map
        (fun e => e.content)
      = docs.map Prod.fst := by
  rw [List.map_map]
  have h1 : ((fun e : VEntry => e.content) ∘ fun ke : Nat × (String × ChunkMeta) =>
      (⟨n + ke.1, ke.2.1, ke.2.2⟩ : VEntry))
      = ((Prod.fst ∘ Prod.snd) : Nat × (String × ChunkMeta) → String) := rfl
  rw [h1, ← List.map_map, enum_map_snd']

theorem entries_mem (docs : List (String × ChunkMeta)) (n : Nat) :
    ∀ e ∈ docs.enum.map (fun ke => (⟨n + ke.1, ke.2.1, ke.2.2⟩ : VEntry)),
      ∃ pr ∈ docs, e.meta = pr.2 := by
  intro e he
  rw [List.mem_map] at he
  obtain ⟨ke, hke, rfl⟩ := he
  refine ⟨ke.2, ?_, rfl⟩
  exact List.getElem?_mem (List.mem_enum_iff_getElem?.mp hke)

/-- Claim C3 (amended): re-ingesting a document under the same `doc_id`
with different content — the ingestion cache does not already hold the
`(doc_id, new fingerprint)` key, old chunks exist, and the stored
fingerprint differs — returns `True`, deletes every old chunk before
inserting, and leaves the index's chunk set for that `doc_id` exactly
equal to the new content's chunks: the retained contents are the new
chunks in order, and every remaining chunk of that `doc_id` carries the
new fingerprint (so no old-generation chunk coexists with the new
generation). -/
theorem add_documents_supersedes (splitter : String → List String)
    (pyhash : String → Int) (st : AgentState) (texts : List String)
    (docId : String) (filename : Option String) (e0 : VEntry) (rest : List VEntry)
    (hcache : st.cache.contains (ingestCacheKey pyhash texts docId) = false)
    (hexist : st.store.filter (fun e => e.meta.doc_id == docId) = e0 :: rest)
    (hdiff : (e0.meta.content_hash == contentHashStr pyhash texts) = false) :
    (add_documents splitter pyhash st texts docId filename).1 = true
    ∧ (((add_documents splitter pyhash st texts docId filename).2).store.filter
          (fun e => e.meta.doc_id == docId)).map (fun e => e.content)
        = (texts.map splitter).flatten
    ∧ ∀ e ∈ ((add_documents splitter pyhash st texts docId filename).2).store,
        e.meta.doc_id = docId → e.meta.content_hash = contentHashStr pyhash texts := by
  have hres : add_documents splitter pyhash st texts docId filename =
      storeNewDocuments
        { st with store := st.store.filter (fun e => e.meta.doc_id != docId) }
        (buildDocuments splitter texts docId filename (contentHashStr pyhash texts))
        (ingestCacheKey pyhash texts docId) := by
    simp only [add_documents, hexist]
    rw [if_neg (by simpa using hcache), if_neg (by simp [hdiff])]
  have hbd := buildDocuments_map_fst splitter texts docId filename
    (contentHashStr pyhash texts)
  rcases hdocs : buildDocuments splitter texts docId filename (contentHashStr pyhash texts)
    with _ | ⟨d0, ds⟩
  · rw [hdocs] at hbd
    refine ⟨by rw [hres, hdocs]; rfl, ?_, ?_⟩
    · rw [hres, hdocs]
      simp only [storeNewDocuments]
      rw [filter_ne_filter_eq]
      rw [← hbd]
      rfl
    · intro e he hdid
      rw [hres, hdocs] at he
      simp only [storeNewDocuments] at he
      have hne := List.of_mem_filter he
      simp [bne] at hne
      exact absurd hdid hne
  · rw [hdocs] at hbd
    have hstore : ((add_documents splitter pyhash st texts docId filename).2).store =
        st.store.filter (fun e => e.meta.doc_id != docId)
          ++ (d0 :: ds).enum.map
              (fun ke => (⟨st.next_id + ke.1, ke.2.1, ke.2.2⟩ : VEntry)) := by
      rw [hres, hdocs]
      rfl
    have hallmeta : ∀ e ∈ (d0 :: ds).enum.map
        (fun ke => (⟨st.next_id + ke.1, ke.2.1, ke.2.2⟩ : VEntry)),
        e.meta.doc_id = docId ∧ e.meta.content_hash = contentHashStr pyhash texts := by
      intro e he
      obtain ⟨pr, hpr, hmeta⟩ := entries_mem (d0 :: ds) st.next_id e he
      have hp := buildDocuments_mem splitter texts docId filename
        (contentHashStr pyhash texts) pr (hdocs ▸ hpr)
      rw [hmeta]
      exact hp
    refine ⟨by rw [hres, hdocs]; rfl, ?_, ?_⟩
    · rw [hstore, List.filter_append, filter_ne_filter_eq]
      have hkeep : ((d0 :: ds).enum.map
          (fun ke => (⟨st.next_id + ke.1, ke.2.1, ke.2.2⟩ : VEntry))).filter
            (fun e => e.meta.doc_id == docId)
          = (d0 :: ds).enum.map (fun ke => (⟨st.next_id + ke.1, ke.2.1, ke.2.2⟩ : VEntry)) := by
        apply List.filter_eq_self.mpr
        intro e he
        exact beq_iff_eq.mpr (hallmeta e he).1
      rw [List.nil_append, hkeep, entries_map_content]
      exact hbd
    · intro e he hdid
      rw [hstore] at he
      rcases List.mem_append.mp he with h1 | h2
      · have hne := List.of_mem_filter h1
        simp [bne] at hne
        exact absurd hdid hne
      · exact (hallmeta e h2).2

/-- Witness for `add_documents_supersedes`: a one-entry index holding an
old-generation chunk of `"d"` is re-ingested with different content. -/
theorem add_documents_supersedes_witness :
    ((add_documents (fun t => [t]) (fun s => (s.length : Int))
        ⟨[⟨0, "old text", mkChunkMeta "d" none "99" 0 0 "old text"⟩], 1, [], "ollama"⟩
        ["new"] "d" none).2.store.filter
          (fun e => e.meta.doc_id == "d")).map (fun e => e.content)
      = ((["new"].map (fun t => [t])).flatten : List String) :=
  (add_documents_supersedes (fun t => [t]) (fun s => (s.length : Int))
    ⟨[⟨0, "old text", mkChunkMeta "d" none "99" 0 0 "old text"⟩], 1, [], "ollama"⟩
    ["new"] "d" none
    ⟨0, "old text", mkChunkMeta "d" none "99" 0 0 "old text"⟩ []
    (by decide) (by decide) (by decide)).2.1

/-- Claim C3 (counterexample): the ingestion cache is keyed by
`(doc_id, fingerprint)` and is consulted BEFORE the index is reconciled,
so re-ingesting earlier content under the same `doc_id` is answered from
the stale cache entry: ingest `"ab"` under `"d"`, then `"xyz"` under
`"d"` (supersedes), then `"ab"` again — the third call returns `True` but
leaves the index still holding the `"xyz"` generation, not the claimed
new-content chunks `["ab"]`. -/
theorem add_documents_stale_cache_counterexample :
    (add_documents (fun t => [t]) (fun s => (s.length : Int))
      ((add_documents (fun t => [t]) (fun s => (s.length : Int))
        ((add_documents (fun t => [t]) (fun s => (s.length : Int))
          ⟨[], 0, [], "ollama"⟩ ["ab"] "d" none).2) ["xyz"] "d" none).2)
      ["ab"] "d" none).1 = true
    ∧ ((add_documents (fun t => [t]) (fun s => (s.length : Int))
        ((add_documents (fun t => [t]) (fun s => (s.length : Int))
          ((add_documents (fun t => [t]) (fun s => (s.length : Int))
            ⟨[], 0, [], "ollama"⟩ ["ab"] "d" none).2) ["xyz"] "d" none).2)
        ["ab"] "d" none).2.store.filter
          (fun e => e.meta.doc_id == "d")).map (fun e => e.content) = ["xyz"]
    ∧ (["xyz"] : List String) ≠ (((["ab"].map (fun t : String => [t])).flatten) : List String)
    ∧ ((add_documents (fun t => [t]) (fun s => (s.length : Int))
          ((add_documents (fun t => [t]) (fun s => (s.length : Int))
            ⟨[], 0, [], "ollama"⟩ ["ab"] "d" none).2) ["xyz"] "d" none).2.store.filter
            (fun e => e.meta.doc_id == "d")).all
          (fun e => e.meta.content_hash
            != contentHashStr (fun s => (s.length : Int)) ["ab"]) = true := by
  refine ⟨by decide, by decide, by decide, by decide⟩

/-- Claim C5: in `"auto"` mode `_initialize_llm` selects the first
available provider in the strict priority order gemini > mistral > ollama
(Ollama the terminal fallback); an explicitly requested but unavailable
provider degrades down the same chain starting below the requested one. -/
theorem chooseLlmProvider_priority (gem mis : Bool) :
    chooseLlmProvider "auto" gem mis = firstAvailableProvider gem mis providerPriority
    ∧ (gem = false →
        chooseLlmProvider "gemini" gem mis =
          firstAvailableProvider gem mis (providerPriority.drop 1))
    ∧ (mis = false →
        chooseLlmProvider "mistral" gem mis =
          firstAvailableProvider gem mis (providerPriority.drop 2)) := by
  cases gem <;> cases mis <;>
    exact ⟨by decide,
      fun h => by first | exact absurd h (by decide) | decide,
      fun h => by first | exact absurd h (by decide) | decide⟩

/-- Witness for `chooseLlmProvider_priority`: auto mode with only Mistral
available picks Mistral; explicit Gemini when unavailable degrades to the
chain below it; explicit Mistral when unavailable degrades to Ollama. -/
theorem chooseLlmProvider_priority_witness :
    chooseLlmProvider "auto" false true = firstAvailableProvider false true providerPriority
    ∧ chooseLlmProvider "gemini" false true =
        firstAvailableProvider false true (providerPriority.drop 1)
    ∧ chooseLlmProvider "mistral" true false =
        firstAvailableProvider true false (providerPriority.drop 2) :=
  ⟨(chooseLlmProvider_priority false true).1,
   (chooseLlmProvider_priority false true).2.1 rfl,
   (chooseLlmProvider_priority true false).2.2 rfl⟩

/-- Claim C10: `store_document` with `clear_previous` left at its Python
default (`True`) first clears the ENTIRE collection, so afterwards the
collection is exactly the new document's chunks: every stored entry
belongs to `doc_id`, and every previously stored entry of any other
document is gone. -/
theorem store_document_clears_others (st : EmbState) (docId : String)
    (chunks : List String) :
    (store_document st docId chunks true).collection
        = chunks.enum.map (fun ic => mkEmbEntry docId ic.1 ic.2)
    ∧ (∀ e ∈ (store_document st docId chunks true).collection, e.doc_id = docId)
    ∧ ∀ e ∈ st.collection, e.doc_id ≠ docId →
        e ∉ (store_document st docId chunks true).collection := by
  have h1 : (store_document st docId chunks true).collection
      = chunks.enum.map (fun ic => mkEmbEntry docId ic.1 ic.2) := by
    simp [store_document, clear_all_documents]
  have h2 : ∀ e ∈ (store_document st docId chunks true).collection, e.doc_id = docId := by
    intro e he
    rw [h1] at he
    obtain ⟨ic, _, rfl⟩ := List.mem_map.mp he
    rfl
  refine ⟨h1, h2, ?_⟩
  intro e _ hne hmem
  exact hne (h2 e hmem)

/-- Witness for `store_document_clears_others`: a collection holding a
chunk of another document is fully replaced. -/
theorem store_document_clears_others_witness :
    (store_document ⟨[mkEmbEntry "other" 0 "old"], some "other"⟩ "d" ["c1"] true).collection
      = [mkEmbEntry "d" 0 "c1"]
    ∧ mkEmbEntry "other" 0 "old" ∉
        (store_document ⟨[mkEmbEntry "other" 0 "old"], some "other"⟩ "d" ["c1"] true).collection :=
  ⟨by
    rw [(store_document_clears_others ⟨[mkEmbEntry "other" 0 "old"], some "other"⟩
      "d" ["c1"]).1]
    decide,
   (store_document_clears_others ⟨[mkEmbEntry "other" 0 "old"], some "other"⟩
      "d" ["c1"]).2.2 (mkEmbEntry "other" 0 "old") (by decide) (by decide)⟩
